import Mathlib

/-!
Verification development for the red-black SOR Poisson solver of `psi_sor.c`
(functions `psi_sor_poisson` and `psi_sor_vare_poisson`) and the halo-exchange
substrate it relies on.

Conventions of the shallow embedding:
* C `double` arithmetic is modelled over a `LinearOrderedField` (instantiated
  at `ℝ` or `ℚ`); machine integers are modelled as `ℤ` / `ℕ`.
* A fatal `assert` is modelled by an `Option`-valued step returning `none`.
* Fields (the `obj->psi` buffer, charge density delivered by `psi_rho_elec`)
  are modelled as total functions of the site, either of the linear storage
  address (`ℤ → α`, mirroring `obj->psi[addr_rank0(nsites, index)]`) or of the
  three-dimensional local coordinate (`ℤ × ℤ × ℤ → α`).
-/

set_option autoImplicit false

namespace PsiSor

/-! ### Over-relaxation parameter (psi_sor.c lines 139, 178, 217-226, 399, 470-472)

Both solvers start with `omega = 1.0`.  The uniform solver recomputes
`omega` after every half-sweep (red/black pass): the recomputation after the
very first pass (`n == 0 && pass == 0`) uses `1/(1 - radius^2/2)` and each later
one uses `1/(1 - radius^2*omega/4)`; both recomputed values are guarded by
`assert(1.0 < omega); assert(omega < 2.0)`.  The variable-epsilon solver
recomputes `omega` once per full sweep, always by `1/(1 - radius^2*omega/4)`,
with no assertion. -/

/-- Spectral-radius estimate `radius = 1.0 - 0.5*pow(4.0*atan(1.0)/dmax(ltot[X],ltot[Z]), 2)`
(psi_sor.c lines 139 and 334). -/
noncomputable def sor_radius (lx lz : ℝ) : ℝ :=
  1 - 0.5 * (4 * Real.arctan 1 / max lx lz) ^ 2

/-- The recomputation of `omega` in `psi_sor_poisson` (lines 219-224): after
pass `pass` of full sweep `n`, the seed formula is used when `n = 0 ∧ pass = 0`
and the Chebyshev-like recurrence otherwise. -/
def omegaNextU {α : Type} [LinearOrderedField α] (r : α) (n pass : ℕ) (w : α) : α :=
  if n = 0 ∧ pass = 0 then 1 / (1 - r ^ 2 / 2) else 1 / (1 - r ^ 2 * w / 4)

/-- The `assert(1.0 < omega); assert(omega < 2.0)` pair of `psi_sor_poisson`
(lines 225-226), modelled as a fallible identity. -/
def omegaCheck {α : Type} [LinearOrderedField α] (w : α) : Option α :=
  if 1 < w ∧ w < 2 then some w else none

/-- Closed form of the `omega` value in effect during half-sweep `t` of
`psi_sor_poisson` (`t = 2*n + pass`): `omega` starts at `1`, the value for
half-sweep 1 comes from the seed formula, and each later half-sweep value from
the recurrence applied to its predecessor. -/
def omegaHalfU {α : Type} [LinearOrderedField α] (r : α) : ℕ → α
  | 0 => 1
  | 1 => 1 / (1 - r ^ 2 / 2)
  | t + 2 => 1 / (1 - r ^ 2 * omegaHalfU r (t + 1) / 4)

/-- Closed form of the `omega` value in effect during full sweep `m` of
`psi_sor_vare_poisson` (line 472): starts at `1`, and is recomputed once per
full sweep by the recurrence, never by the seed formula. -/
def omegaFullV {α : Type} [LinearOrderedField α] (r : α) : ℕ → α
  | 0 => 1
  | m + 1 => 1 / (1 - r ^ 2 * omegaFullV r m / 4)

/-! ### Full-sweep skeletons

A full sweep is two red/black passes.  The site updates of one pass (together
with the halo refresh `psi_halo_psi`/`psi_halo_psijump` that follows it) are
abstracted as a function `half : pass → omega → state → state × local residual
norms` (one local norm per MPI process); the concrete per-site update is given
separately below (`uniformSiteUpdate`, `vareSiteUpdate`).  What the skeletons
keep concrete is exactly the `omega` control flow of the two solvers. -/

/-- One full sweep of `psi_sor_poisson` (lines 186-231): pass 0, recompute and
assert `omega`, pass 1, recompute and assert `omega` again.  Returns the new
state, the `omega` for the next sweep and the per-process residual norms
accumulated over both passes (`rnorm_local[1]`); `none` models a fatal
assertion failure. -/
def fullSweepU {σ α : Type} [LinearOrderedField α] {P : ℕ}
    (half : ℕ → α → σ → σ × (Fin P → α)) (r : α) (n : ℕ) (w : α) (s : σ) :
    Option (σ × α × (Fin P → α)) :=
  let h0 := half 0 w s
  (omegaCheck (omegaNextU r n 0 w)).bind (fun w1 =>
    let h1 := half 1 w1 h0.1
    (omegaCheck (omegaNextU r n 1 w1)).map (fun w2 =>
      (h1.1, w2, fun p => h0.2 p + h1.2 p)))

/-- One full sweep of `psi_sor_vare_poisson` (lines 407-472): both passes use
the same `omega`, which is recomputed once after the pass loop, with no
assertion (the code notes the default Chebyshev acceleration causes a
convergence problem, and drops the seed step). -/
def fullSweepV {σ α : Type} [LinearOrderedField α] {P : ℕ}
    (half : ℕ → α → σ → σ × (Fin P → α)) (r : α) (_n : ℕ) (w : α) (s : σ) :
    Option (σ × α × (Fin P → α)) :=
  let h0 := half 0 w s
  let h1 := half 1 w h0.1
  some (h1.1, 1 / (1 - r ^ 2 * w / 4), fun p => h0.2 p + h1.2 p)

/-! ### Iteration control (psi_sor.c lines 180-266 and 401-508)

Both solvers run up to `niteration` full sweeps; every `ncheck` sweeps
(`n % ncheck == 0`) the accumulated residual norms are `MPI_Allreduce`-summed
and tested against the absolute tolerance and against the relative tolerance
times the (reduced) initial residual norm, stopping on whichever triggers
first.  If the iteration budget is exhausted, the last state is kept and the
initial and last reduced residual norms are reported as a non-fatal warning. -/

/-- Exit condition of a solver run. -/
inductive SorStatus : Type where
  | convergedAbs : SorStatus
  | convergedRel : SorStatus
  | maxIts : SorStatus
deriving DecidableEq

/-- Outcome of a solver run: final state, exit condition, and the two reduced
residual norms `rnorm[0]` (initial) and `rnorm[1]` (as of the last residual
check) that the solver reports. -/
structure SorResult (σ α : Type) where
  state : σ
  status : SorStatus
  rnorm0 : α
  rnorm1 : α
deriving DecidableEq

/-- The iteration loop shared by `psi_sor_poisson` and `psi_sor_vare_poisson`
(lines 180-266 resp. 401-508).  `sweep n s` performs full sweep `n` (returning
`none` on a fatal assertion), `r0` is the reduced initial residual norm
`rnorm[0]`, `fuel` the remaining iterations, `rlast` the reduced residual norm
from the most recent check (`rnorm[1]`).  At a check iteration the per-process
local norms are summed (the `MPI_Allreduce` with `MPI_SUM`) and compared:
first `rnorm[1] < tol_abs`, then `rnorm[1] < tol_abs || rnorm[1] <
tol_rel*rnorm[0]` (in the variable-epsilon solver the second test is just the
relative comparison, which is equivalent in the else-branch of the first). -/
def sorIter {σ α : Type} [LinearOrderedField α] {P : ℕ}
    (sweep : ℕ → σ → Option (σ × (Fin P → α)))
    (tolAbs tolRel : α) (ncheck : ℕ) (r0 : α) :
    ℕ → ℕ → σ → α → Option (SorResult σ α)
  | 0, _, s, rlast => some ⟨s, SorStatus.maxIts, r0, rlast⟩
  | fuel + 1, n, s, rlast =>
      match sweep n s with
      | none => none
      | some (s1, rloc) =>
          if n % ncheck = 0 then
            let r1 := Finset.univ.sum rloc
            if r1 < tolAbs then some ⟨s1, SorStatus.convergedAbs, r0, r1⟩
            else if r1 < tolAbs ∨ r1 < tolRel * r0 then
              some ⟨s1, SorStatus.convergedRel, r0, r1⟩
            else sorIter sweep tolAbs tolRel ncheck r0 fuel (n + 1) s1 r1
          else sorIter sweep tolAbs tolRel ncheck r0 fuel (n + 1) s1 rlast

/-- Pure iteration of the sweeps alone (no residual checks): what the solver
state becomes after `fuel` further full sweeps starting at sweep `n`. -/
def sweepIter {σ α : Type} {P : ℕ}
    (sweep : ℕ → σ → Option (σ × (Fin P → α))) : ℕ → ℕ → σ → Option σ
  | 0, _, s => some s
  | fuel + 1, n, s =>
      match sweep n s with
      | none => none
      | some (s1, _) => sweepIter sweep fuel (n + 1) s1

/-! ### Red/black site selection (psi_sor.c lines 186-191 and 407-412)

Each pass visits `ic = 1..nlocal[X]`, `jc = 1..nlocal[Y]` and, with
`kst = 1 + (ic + jc + pass) % 2`, the sites `kc = kst, kst+2, ... <= nlocal[Z]`. -/

/-- Local site `(i, j, k)` is visited by pass `pass` of the red/black loop:
the direct transcription of the loop bounds, with the `kc` loop's iteration
set written as `kst ≤ k ≤ nlocal[Z]` with `k - kst` even, where
`kst = 1 + (i + j + pass) % 2` (lines 188-191 / 409-412). -/
def updatedInPass (nx ny nz pass i j k : ℤ) : Prop :=
  1 ≤ i ∧ i ≤ nx ∧ 1 ≤ j ∧ j ≤ ny ∧
    1 + (i + j + pass) % 2 ≤ k ∧ k ≤ nz ∧ (k - (1 + (i + j + pass) % 2)) % 2 = 0

instance (nx ny nz pass i j k : ℤ) : Decidable (updatedInPass nx ny nz pass i j k) := by
  unfold updatedInPass; infer_instance

/-- Global site `g` is updated by process `p` in pass `pass`: the solver loops
run over local coordinates, and a process at Cartesian coordinates `p` owns the
slab with offset `(nx*p, ny*p, nz*p)` (exact division of the global extents
among the process grid, spec section 3), so `g` has local coordinates
`g - offset` on `p`. -/
def globalUpdated (nx ny nz pass : ℤ) (p g : ℤ × ℤ × ℤ) : Prop :=
  updatedInPass nx ny nz pass (g.1 - nx * p.1) (g.2.1 - ny * p.2.1) (g.2.2 - nz * p.2.2)

instance (nx ny nz pass : ℤ) (p g : ℤ × ℤ × ℤ) :
    Decidable (globalUpdated nx ny nz pass p g) := by
  unfold globalUpdated; infer_instance

/-- Two sites are neighbours in the 6-point stencil: they differ by exactly one
in exactly one coordinate. -/
def stencilNeighbor (a b : ℤ × ℤ × ℤ) : Prop :=
  (a.1 - b.1).natAbs + (a.2.1 - b.2.1).natAbs + (a.2.2 - b.2.2).natAbs = 1

instance (a b : ℤ × ℤ × ℤ) : Decidable (stencilNeighbor a b) := by
  unfold stencilNeighbor; infer_instance

/-! ### Stencil operators (psi_sor.c lines 161-168, 199-211, 348-392, 414-460)

Fields are functions of the three-dimensional site; the address arithmetic
`index ± xs`, `index ± ys`, `index ± zs` of the source steps to the six
coordinate neighbours (proved below from the stride model, `cs_index_xp`
etc.). -/

/-- Neighbour in the positive X direction (`index + xs`). -/
def xp (x : ℤ × ℤ × ℤ) : ℤ × ℤ × ℤ := (x.1 + 1, x.2.1, x.2.2)

/-- Neighbour in the negative X direction (`index - xs`). -/
def xm (x : ℤ × ℤ × ℤ) : ℤ × ℤ × ℤ := (x.1 - 1, x.2.1, x.2.2)

/-- Neighbour in the positive Y direction (`index + ys`). -/
def yp (x : ℤ × ℤ × ℤ) : ℤ × ℤ × ℤ := (x.1, x.2.1 + 1, x.2.2)

/-- Neighbour in the negative Y direction (`index - ys`). -/
def ym (x : ℤ × ℤ × ℤ) : ℤ × ℤ × ℤ := (x.1, x.2.1 - 1, x.2.2)

/-- Neighbour in the positive Z direction (`index + zs`). -/
def zp (x : ℤ × ℤ × ℤ) : ℤ × ℤ × ℤ := (x.1, x.2.1, x.2.2 + 1)

/-- Neighbour in the negative Z direction (`index - zs`). -/
def zm (x : ℤ × ℤ × ℤ) : ℤ × ℤ × ℤ := (x.1, x.2.1, x.2.2 - 1)

/-- The 6-point-stencil Laplacian `dpsi` of `psi_sor_poisson` (lines 161-168
and 199-206): sum of the six neighbour values minus six times the centre. -/
def lap6 {α : Type} [LinearOrderedField α] (psi : ℤ × ℤ × ℤ → α) (x : ℤ × ℤ × ℤ) : α :=
  psi (xp x) + psi (xm x) + psi (yp x) + psi (ym x) + psi (zp x) + psi (zm x) - 6 * psi x

/-- Per-site residual of the uniform solver (line 209):
`epsilon*dpsi + eunit*beta*rho_elec`. -/
def uniformResidual {α : Type} [LinearOrderedField α] (eps eunit beta : α)
    (psi rho : ℤ × ℤ × ℤ → α) (x : ℤ × ℤ × ℤ) : α :=
  eps * lap6 psi x + eunit * beta * rho x

/-- The relaxation update of `psi_sor_poisson` (lines 210-211):
`psi[index] -= omega*residual / (-6.0*epsilon)`. -/
def uniformSiteUpdate {α : Type} [LinearOrderedField α] (eps eunit beta w : α)
    (psi rho : ℤ × ℤ × ℤ → α) (x : ℤ × ℤ × ℤ) : α :=
  psi x - w * uniformResidual eps eunit beta psi rho x / (-6 * eps)

/-- The differenced left-hand side `depsi` of `psi_sor_vare_poisson`
(lines 348-390 and 414-455): the Laplacian part weighted by the centre
coefficient `eps0 = fepsilon(index)`, plus for each axis the two terms
`± 0.25*fepsilon(index ± stride)*(psi(+) - psi(-))`. -/
def depsiVare {α : Type} [LinearOrderedField α] (eps psi : ℤ × ℤ × ℤ → α)
    (x : ℤ × ℤ × ℤ) : α :=
  eps x * (-6 * psi x + psi (xp x) + psi (xm x) + psi (yp x) + psi (ym x)
      + psi (zp x) + psi (zm x))
    + eps (xp x) * (psi (xp x) - psi (xm x)) / 4
    - eps (xm x) * (psi (xp x) - psi (xm x)) / 4
    + eps (yp x) * (psi (yp x) - psi (ym x)) / 4
    - eps (ym x) * (psi (yp x) - psi (ym x)) / 4
    + eps (zp x) * (psi (zp x) - psi (zm x)) / 4
    - eps (zm x) * (psi (zp x) - psi (zm x)) / 4

/-- The flux-conservative discrete operator in the spec's words: the
coefficient at each of the six face midpoints is the arithmetic mean of the
coefficient at the two adjacent cell centres, and the operator is the sum over
the six faces of that face coefficient times `(psi(neighbour) - psi(centre))`.
This is the formulation the spec claims `depsi` equals; it comes from the
spec's words, for comparison with `depsiVare` above. -/
def fluxDepsiSpec {α : Type} [LinearOrderedField α] (eps psi : ℤ × ℤ × ℤ → α)
    (x : ℤ × ℤ × ℤ) : α :=
  (eps x + eps (xp x)) / 2 * (psi (xp x) - psi x)
    + (eps x + eps (xm x)) / 2 * (psi (xm x) - psi x)
    + (eps x + eps (yp x)) / 2 * (psi (yp x) - psi x)
    + (eps x + eps (ym x)) / 2 * (psi (ym x) - psi x)
    + (eps x + eps (zp x)) / 2 * (psi (zp x) - psi x)
    + (eps x + eps (zm x)) / 2 * (psi (zm x) - psi x)

/-- Per-site residual of the variable-epsilon solver (line 458):
`depsi + eunit*beta*rho_elec`. -/
def vareResidual {α : Type} [LinearOrderedField α] (eunit beta : α)
    (eps psi rho : ℤ × ℤ × ℤ → α) (x : ℤ × ℤ × ℤ) : α :=
  depsiVare eps psi x + eunit * beta * rho x

/-- The relaxation update of `psi_sor_vare_poisson` (line 459):
`psi[index] -= omega*residual / (-6.0*eps0)` with `eps0` the centre
coefficient delivered by the callback. -/
def vareSiteUpdate {α : Type} [LinearOrderedField α] (eunit beta w : α)
    (eps psi rho : ℤ × ℤ × ℤ → α) (x : ℤ × ℤ × ℤ) : α :=
  psi x - w * vareResidual eunit beta eps psi rho x / (-6 * eps x)

/-! ### Linear storage addressing and the initial residual norm
(psi_sor.c lines 149-174; coords strides) -/

/-- Modelled from the spec: `coords.c` (`cs_strides`) is not under `src/`; the
spec (section 3) prescribes memory strides for a row/column/plane-major
addressing scheme over `nlocal + 2*halo` storage points per axis.  The X
stride spans a full Y-Z plane of the halo-extended box. -/
def xstride (ny nz h : ℤ) : ℤ := (ny + 2 * h) * (nz + 2 * h)

/-- Modelled from the spec: the Y stride spans one halo-extended Z row. -/
def ystride (nz h : ℤ) : ℤ := nz + 2 * h

/-- Modelled from the spec: `coords.c` (`cs_index`) is not under `src/`; the
spec (sections 3, 4.1) prescribes a bijective linear address for local
coordinates including the halo, consistent with the declared strides: local
coordinate `ic` ranges over `1-h .. nlocal+h` and is shifted to a 0-based
offset `h + ic - 1` before applying the strides (the Z stride is 1). -/
def cs_index (ny nz h ic jc kc : ℤ) : ℤ :=
  xstride ny nz h * (h + ic - 1) + ystride nz h * (h + jc - 1) + (h + kc - 1)

/-- The 6-point stencil `dpsi` exactly as the source reads it from the flat
buffer (lines 161-168): `psi[index ± xs] + psi[index ± ys] + psi[index ± zs] -
6*psi[index]` with the given strides. -/
def dpsiFlat {α : Type} [LinearOrderedField α] (psiA : ℤ → α) (xs ys zs idx : ℤ) : α :=
  psiA (idx + xs) + psiA (idx - xs) + psiA (idx + ys) + psiA (idx - ys)
    + psiA (idx + zs) + psiA (idx - zs) - 6 * psiA idx

/-- The initial residual norm `rnorm_local[0]` of `psi_sor_poisson`
(lines 149-174): the sum over every owned interior site `1 ≤ ic ≤ nlocal[X]`,
`1 ≤ jc ≤ nlocal[Y]`, `1 ≤ kc ≤ nlocal[Z]` of
`fabs(epsilon*dpsi + eunit*beta*rho_elec)`, with `dpsi` read through
`cs_index` and the strides and `rho_elec` the value delivered by
`psi_rho_elec` at the site's address. -/
def rnorm0Local {α : Type} [LinearOrderedField α] (nx ny nz h : ℤ)
    (eps eunit beta : α) (psiA rhoA : ℤ → α) : α :=
  ∑ ic ∈ Finset.Icc 1 nx, ∑ jc ∈ Finset.Icc 1 ny, ∑ kc ∈ Finset.Icc 1 nz,
    |eps * dpsiFlat psiA (xstride ny nz h) (ystride nz h) 1 (cs_index ny nz h ic jc kc)
      + eunit * beta * rhoA (cs_index ny nz h ic jc kc)|

/-! ### Solver entry assertions (psi_sor.c lines 128-135 and 316-330)

`psi_sor_poisson` asserts `nhalo >= 1` and that all three local extents are
even; `psi_sor_vare_poisson` asserts only the three parity conditions (it has
no halo-width assertion). -/

/-- The entry assertions of `psi_sor_poisson` (lines 128-135): halo width at
least 1 and even local extents along each axis. -/
def poissonEntryOk (nhalo nx ny nz : ℤ) : Prop :=
  1 ≤ nhalo ∧ nx % 2 = 0 ∧ ny % 2 = 0 ∧ nz % 2 = 0

instance (nhalo nx ny nz : ℤ) : Decidable (poissonEntryOk nhalo nx ny nz) := by
  unfold poissonEntryOk; infer_instance

/-- The entry assertions of `psi_sor_vare_poisson` (lines 328-330): even local
extents along each axis only; the halo width is not examined (the `nhalo`
argument is part of the coordinate-system state but unused by any assertion in
this solver). -/
def vareEntryOk (_nhalo nx ny nz : ℤ) : Prop :=
  nx % 2 = 0 ∧ ny % 2 = 0 ∧ nz % 2 = 0

instance (nhalo nx ny nz : ℤ) : Decidable (vareEntryOk nhalo nx ny nz) := by
  unfold vareEntryOk; infer_instance

end PsiSor

namespace Halo

/-! ### Field halo exchange (spec sections 4.2 and 8; tests
`test_field_halo_create`, `test_field_halo` in tests/unit/test_field.c)

The halo-exchange implementation (`field.c` / the coordinate communication
layer) is not under `src/`; only its unit tests are.  The model below is
modelled from the spec: each of an `α`-valued field's processes, arranged in a
fully periodic Cartesian grid of `P d` processes along axis `d`, owns local
sites `1 .. n d` per axis plus a ghost rind of width `h`; the exchange
processes the three axes sequentially (axis 1, then 2, then 3), and in each
axis phase every ghost site of depth at most `h` receives the corresponding
boundary-slab value of the forward or backward neighbour (wrapping
periodically), the slab covering the full cross-section of the halo-extended
box so that an axis's exchange sees the ghosts already updated by the previous
axes. -/

/-- Modelled from the spec: a process's local-to-global map.  Process `p` owns
the slab with offset `p d * n d` along axis `d` (exact division, spec section
3); local coordinate `c d ∈ 1..n d` is 0-based globally as `p d * n d + c d -
1`, and ghost coordinates map through the periodic wrap modulo the global
extent `P d * n d`. -/
def glb (n P : Fin 3 → ℤ) (p c : Fin 3 → ℤ) : Fin 3 → ℤ :=
  fun d => (p d * n d + c d - 1) % (P d * n d)

/-- Modelled from the spec: one axis phase of the halo exchange.  Along axis
`d`, interior values are kept; a low ghost site (`1 - h ≤ c d ≤ 0`) receives
the backward neighbour's value at the mirrored local offset `c d + n d` (its
high boundary slab); a high ghost site (`n d + 1 ≤ c d ≤ n d + h`) receives
the forward neighbour's value at `c d - n d`; the neighbour's process
coordinate wraps periodically modulo `P d`.  The other two coordinates are
passed through unchanged, so the communicated slab covers the full
halo-extended cross-section. -/
def phase {α : Type} (n P : Fin 3 → ℤ) (h : ℤ) (d : Fin 3)
    (A : (Fin 3 → ℤ) → (Fin 3 → ℤ) → α) : (Fin 3 → ℤ) → (Fin 3 → ℤ) → α :=
  fun p c =>
    if 1 ≤ c d ∧ c d ≤ n d then A p c
    else if 1 - h ≤ c d ∧ c d ≤ 0 then
      A (Function.update p d ((p d - 1) % P d)) (Function.update c d (c d + n d))
    else if n d + 1 ≤ c d ∧ c d ≤ n d + h then
      A (Function.update p d ((p d + 1) % P d)) (Function.update c d (c d - n d))
    else A p c

/-- Modelled from the spec: the full halo exchange runs the three axis phases
sequentially, first axis 0, then axis 1, then axis 2. -/
def exchange {α : Type} (n P : Fin 3 → ℤ) (h : ℤ)
    (A : (Fin 3 → ℤ) → (Fin 3 → ℤ) → α) : (Fin 3 → ℤ) → (Fin 3 → ℤ) → α :=
  phase n P h 2 (phase n P h 1 (phase n P h 0 A))

/-- Process coordinates are valid: within the process grid on every axis. -/
def ValidProc (P : Fin 3 → ℤ) (p : Fin 3 → ℤ) : Prop :=
  ∀ d, 0 ≤ p d ∧ p d < P d

instance (P p : Fin 3 → ℤ) : Decidable (ValidProc P p) := by
  unfold ValidProc; infer_instance

/-- The distributed family `A` holds the slabs of the global field `G`:
on every valid process, every interior site carries the global value at its
(wrapped) global coordinate. -/
def Coherent {α : Type} (n P : Fin 3 → ℤ) (G : (Fin 3 → ℤ) → α)
    (A : (Fin 3 → ℤ) → (Fin 3 → ℤ) → α) : Prop :=
  ∀ p c, ValidProc P p → (∀ d, 1 ≤ c d ∧ c d ≤ n d) → A p c = G (glb n P p c)

/-- `A` agrees with the global field `G` on every valid process over the box
whose per-axis coordinate ranges are `lo d .. hi d`. -/
def CorrectOn {α : Type} (n P : Fin 3 → ℤ) (G : (Fin 3 → ℤ) → α)
    (A : (Fin 3 → ℤ) → (Fin 3 → ℤ) → α) (lo hi : Fin 3 → ℤ) : Prop :=
  ∀ p c, ValidProc P p → (∀ d, lo d ≤ c d ∧ c d ≤ hi d) → A p c = G (glb n P p c)

end Halo

namespace PsiSor

/-! ## Helper lemmas -/

/-- A reciprocal of a quantity strictly between 1/2 and 1 lies strictly
between 1 and 2. -/
theorem one_div_bounds {α : Type} [LinearOrderedField α] {d : α}
    (h1 : 1 / 2 < d) (h2 : d < 1) : 1 < 1 / d ∧ 1 / d < 2 := by
  have hd : 0 < d := by linarith
  constructor
  · rw [lt_div_iff₀ hd]; linarith
  · rw [div_lt_iff₀ hd]; linarith

/-- For a nonzero spectral-radius estimate of magnitude below 1, every
recomputed `omega` of the uniform solver's recurrence lies strictly
between 1 and 2. -/
theorem omegaHalfU_bounds {α : Type} [LinearOrderedField α] {r : α}
    (hr0 : r ≠ 0) (hr1 : r ^ 2 < 1) :
    ∀ t, 1 ≤ t → 1 < omegaHalfU r t ∧ omegaHalfU r t < 2 := by
  have hr2 : 0 < r ^ 2 := by simpa [sq_abs] using pow_pos (abs_pos.mpr hr0) 2
  intro t ht
  induction t with
  | zero => omega
  | succ k ih =>
    match k, ih with
    | 0, _ =>
        show 1 < 1 / (1 - r ^ 2 / 2) ∧ 1 / (1 - r ^ 2 / 2) < 2
        exact one_div_bounds (by linarith) (by linarith)
    | j + 1, ih =>
        obtain ⟨hw1, hw2⟩ := ih (by omega)
        show 1 < 1 / (1 - r ^ 2 * omegaHalfU r (j + 1) / 4) ∧
          1 / (1 - r ^ 2 * omegaHalfU r (j + 1) / 4) < 2
        have hp : 0 < r ^ 2 * omegaHalfU r (j + 1) := mul_pos hr2 (by linarith)
        have hq : r ^ 2 * omegaHalfU r (j + 1) < 2 := by
          nlinarith [mul_pos (show (0:α) < 1 - r ^ 2 by linarith)
            (show (0:α) < omegaHalfU r (j + 1) by linarith)]
        exact one_div_bounds (by linarith) (by linarith)

/-- For a nonzero spectral-radius estimate of magnitude below 1, every
recomputed `omega` of the variable-epsilon solver's recurrence lies strictly
between 1 and 2. -/
theorem omegaFullV_bounds {α : Type} [LinearOrderedField α] {r : α}
    (hr0 : r ≠ 0) (hr1 : r ^ 2 < 1) :
    ∀ m, 1 ≤ m → 1 < omegaFullV r m ∧ omegaFullV r m < 2 := by
  have hr2 : 0 < r ^ 2 := by simpa [sq_abs] using pow_pos (abs_pos.mpr hr0) 2
  intro m hm
  induction m with
  | zero => omega
  | succ k ih =>
    show 1 < 1 / (1 - r ^ 2 * omegaFullV r k / 4) ∧
      1 / (1 - r ^ 2 * omegaFullV r k / 4) < 2
    have hw : 0 < omegaFullV r k ∧ omegaFullV r k < 2 := by
      match k, ih with
      | 0, _ => exact ⟨one_pos, one_lt_two⟩
      | j + 1, ih =>
          obtain ⟨h1, h2⟩ := ih (by omega)
          exact ⟨by linarith, h2⟩
    have hp : 0 < r ^ 2 * omegaFullV r k := mul_pos hr2 hw.1
    have hq : r ^ 2 * omegaFullV r k < 2 := by
      nlinarith [mul_pos (show (0:α) < 1 - r ^ 2 by linarith) hw.1]
    exact one_div_bounds (by linarith) (by linarith)

/-- `omegaCheck` passes a value strictly between 1 and 2 unchanged. -/
theorem omegaCheck_of_bounds {α : Type} [LinearOrderedField α] {w : α}
    (h1 : 1 < w) (h2 : w < 2) : omegaCheck w = some w := by
  unfold omegaCheck
  exact if_pos ⟨h1, h2⟩

/-- The recomputation after pass 0 of sweep `n`, fed the `omega` in effect
during that pass, produces the closed-form value for half-sweep `2n+1`
(the seed formula when `n = 0`, the recurrence otherwise). -/
theorem omegaNextU_pass0 {α : Type} [LinearOrderedField α] (r : α) (n : ℕ) :
    omegaNextU r n 0 (omegaHalfU r (2 * n)) = omegaHalfU r (2 * n + 1) := by
  cases n with
  | zero => simp [omegaNextU, omegaHalfU]
  | succ m =>
      have h1 : 2 * (m + 1) + 1 = (2 * m + 1) + 2 := by ring
      have h2 : 2 * (m + 1) = (2 * m + 1) + 1 := by ring
      rw [h1, h2]
      simp [omegaNextU, omegaHalfU]

/-- The recomputation after pass 1 of sweep `n` always uses the recurrence and
produces the closed-form value for half-sweep `2n+2`. -/
theorem omegaNextU_pass1 {α : Type} [LinearOrderedField α] (r : α) (n : ℕ) :
    omegaNextU r n 1 (omegaHalfU r (2 * n + 1)) = omegaHalfU r (2 * n + 2) := by
  have h1 : 2 * n + 2 = (2 * n) + 2 := by ring
  rw [h1]
  simp [omegaNextU, omegaHalfU]

/-- `sor_radius` at equal extents 4: the concrete spectral-radius estimate
`1 - pi^2/32` used in the C4 counterexample. -/
theorem sor_radius_four : sor_radius 4 4 = 1 - Real.pi ^ 2 / 32 := by
  unfold sor_radius
  rw [Real.arctan_one, max_self]
  norm_num
  ring

/-- `sor_radius 4 4` lies strictly between 0 and 1. -/
theorem sor_radius_four_bounds : 0 < sor_radius 4 4 ∧ sor_radius 4 4 < 1 := by
  rw [sor_radius_four]
  have h1 : Real.pi < 3.15 := Real.pi_lt_d2
  have h2 : 3.141592 < Real.pi := Real.pi_gt_d6
  constructor <;> nlinarith

/-! ## Claim C4 -/

/-- C4 (counterexample): the claim states that in both solvers the
over-relaxation factor is recomputed after every half-sweep, with the seed
formula `1/(1 - radius^2/2)` used for the recomputation that follows the first
half-sweep of the first full sweep.  In `psi_sor_vare_poisson` this fails: a
first full sweep at spectral radius `sor_radius 4 4` runs both half-sweeps with
`omega = 1` (recorded here by a state that logs every `omega` handed to the
pass body), and `1` is not the seed value `1/(1 - radius^2/2)`. -/
theorem c4_vare_omega_schedule_counterexample :
    (fullSweepV (fun _ w (s : List ℝ) => (s ++ [w], fun _ : Fin 1 => (0:ℝ)))
        (sor_radius 4 4) 0 1 []).map (fun o => o.1) = some [1, 1]
      ∧ (1 : ℝ) ≠ 1 / (1 - sor_radius 4 4 ^ 2 / 2) := by
  constructor
  · rfl
  · obtain ⟨hr0, hr1⟩ := sor_radius_four_bounds
    have hd : 0 < 1 - sor_radius 4 4 ^ 2 / 2 := by nlinarith
    have : 1 < 1 / (1 - sor_radius 4 4 ^ 2 / 2) := by
      rw [lt_div_iff₀ hd]; nlinarith
    exact ne_of_lt this

/-- C4 (amended): the uniform solver `psi_sor_poisson` starts with `omega = 1`
and recomputes it after every half-sweep — the recomputation following the
first half-sweep of the first full sweep uses the seed `1/(1 - radius^2/2)`
and every later one `1/(1 - radius^2*omega/4)` — so that, with
`0 < radius^2 < 1`, full sweep `n` runs its two passes with the closed-form
values for half-sweeps `2n` and `2n+1` and hands the value for half-sweep
`2n+2` to the next sweep.  The variable-epsilon solver
`psi_sor_vare_poisson` instead runs both passes of sweep `n` with the same
factor, recomputed once per full sweep by `1/(1 - radius^2*omega/4)` and never
by the seed formula.  In both, `radius` is the estimate
`1 - (pi^2/2)/max(Lx,Lz)^2` (global extents along X and Z only). -/
theorem c4_omega_recurrences {α σ : Type} [LinearOrderedField α] {P : ℕ}
    (half : ℕ → α → σ → σ × (Fin P → α)) (r : α)
    (hr0 : r ≠ 0) (hr1 : r ^ 2 < 1) (n : ℕ) (s : σ) (lx lz : ℝ) :
    fullSweepU half r n (omegaHalfU r (2 * n)) s =
      some ((half 1 (omegaHalfU r (2 * n + 1)) (half 0 (omegaHalfU r (2 * n)) s).1).1,
        omegaHalfU r (2 * n + 2),
        fun p => (half 0 (omegaHalfU r (2 * n)) s).2 p
          + (half 1 (omegaHalfU r (2 * n + 1)) (half 0 (omegaHalfU r (2 * n)) s).1).2 p)
    ∧ fullSweepV half r n (omegaFullV r n) s =
      some ((half 1 (omegaFullV r n) (half 0 (omegaFullV r n) s).1).1,
        omegaFullV r (n + 1),
        fun p => (half 0 (omegaFullV r n) s).2 p
          + (half 1 (omegaFullV r n) (half 0 (omegaFullV r n) s).1).2 p)
    ∧ sor_radius lx lz = 1 - Real.pi ^ 2 / 2 / max lx lz ^ 2 := by
  refine ⟨?_, ?_, ?_⟩
  · obtain ⟨ha1, ha2⟩ := omegaHalfU_bounds hr0 hr1 (2 * n + 1) (by omega)
    obtain ⟨hb1, hb2⟩ := omegaHalfU_bounds hr0 hr1 (2 * n + 2) (by omega)
    unfold fullSweepU
    rw [omegaNextU_pass0, omegaCheck_of_bounds ha1 ha2]
    simp only [Option.some_bind]
    rw [omegaNextU_pass1, omegaCheck_of_bounds hb1 hb2]
    simp only [Option.map_some']
  · rfl
  · unfold sor_radius
    rw [Real.arctan_one]
    rcases eq_or_ne (max lx lz) 0 with h | h
    · rw [h]; norm_num
    · field_simp
      ring

/-- C4 witness: the radius-formula component of `c4_omega_recurrences`,
instantiated at concrete arguments. -/
theorem c4_omega_recurrences_witness :
    sor_radius 1 1 = 1 - Real.pi ^ 2 / 2 / max (1:ℝ) 1 ^ 2 :=
  (c4_omega_recurrences (fun _ _ (s : Unit) => (s, fun _ : Fin 1 => (0:ℚ)))
    (1/2) (by norm_num) (by norm_num) 0 () 1 1).2.2

/-! ## Claim C5 -/

/-- C5 (counterexample): the claim states the strict `(1,2)` bound on the
recomputed over-relaxation factor is enforced by a checked (fatal) assertion
in the variable-coefficient solver as well as the uniform one.  It is not: at
the same inputs (radius argument 4, current factor 1) the uniform sweep's
recomputation fails its assertion (`none`), while the variable-coefficient
sweep returns normally carrying the recomputed factor `-1/3`, which is not
strictly between 1 and 2. -/
theorem c5_vare_no_omega_assert_counterexample :
    (fullSweepV (fun _ _ (s : Unit) => (s, fun _ : Fin 1 => (0:ℚ))) 4 0 1 ()).map
        (fun o => o.2.1) = some (-(1/3))
      ∧ ¬ (1 < -(1/3 : ℚ) ∧ -(1/3 : ℚ) < 2)
      ∧ fullSweepU (fun _ _ (s : Unit) => (s, fun _ : Fin 1 => (0:ℚ))) 4 0 1 () = none := by
  refine ⟨?_, by norm_num, ?_⟩
  · norm_num [fullSweepV]
  · norm_num [fullSweepU, omegaNextU, omegaCheck]

/-- C5 (amended): the uniform solver checks every recomputed factor by
assertion — any state a full sweep of `psi_sor_poisson` returns carries a
factor strictly between 1 and 2 — while `psi_sor_vare_poisson` recomputes the
factor with no assertion and never fails.  Nevertheless, for the recurrences
both solvers actually follow, with a nonzero spectral-radius estimate of
magnitude below 1, every recomputed factor does lie strictly between 1 and
2. -/
theorem c5_omega_bounds_enforcement {α σ : Type} [LinearOrderedField α] {P : ℕ}
    (half : ℕ → α → σ → σ × (Fin P → α)) (r : α) (n : ℕ) :
    (∀ w s out, fullSweepU half r n w s = some out → 1 < out.2.1 ∧ out.2.1 < 2)
    ∧ (∀ w s, fullSweepV half r n w s ≠ none)
    ∧ (r ≠ 0 → r ^ 2 < 1 → ∀ t, 1 ≤ t →
        (1 < omegaHalfU r t ∧ omegaHalfU r t < 2)
        ∧ (1 < omegaFullV r t ∧ omegaFullV r t < 2)) := by
  refine ⟨?_, ?_, ?_⟩
  · intro w s out hout
    simp only [fullSweepU, omegaCheck] at hout
    by_cases h1 : 1 < omegaNextU r n 0 w ∧ omegaNextU r n 0 w < 2
    · rw [if_pos h1] at hout
      simp only [Option.some_bind] at hout
      by_cases h2 : 1 < omegaNextU r n 1 (omegaNextU r n 0 w)
          ∧ omegaNextU r n 1 (omegaNextU r n 0 w) < 2
      · rw [if_pos h2] at hout
        simp only [Option.map_some'] at hout
        rw [← Option.some_inj.mp hout]
        exact h2
      · rw [if_neg h2] at hout
        simp at hout
    · rw [if_neg h1] at hout
      simp at hout
  · intro w s
    unfold fullSweepV
    exact Option.some_ne_none _
  · intro hr0 hr1 t ht
    exact ⟨omegaHalfU_bounds hr0 hr1 t ht, omegaFullV_bounds hr0 hr1 t ht⟩

/-- C5 witness: `c5_omega_bounds_enforcement` instantiated at radius `1/2`
over `ℚ`, extracting the bound on the first recomputed factors of the two
recurrences. -/
theorem c5_omega_bounds_enforcement_witness :
    (1 < omegaHalfU (1/2 : ℚ) 1 ∧ omegaHalfU (1/2 : ℚ) 1 < 2)
      ∧ (1 < omegaFullV (1/2 : ℚ) 1 ∧ omegaFullV (1/2 : ℚ) 1 < 2) :=
  (c5_omega_bounds_enforcement (fun _ _ (s : Unit) => (s, fun _ : Fin 1 => (0:ℚ)))
    (1/2) 0).2.2 (by norm_num) (by norm_num) 1 (by norm_num)

/-! ## Claim C1 -/

/-- C1: whenever the iteration loop shared by the two SOR solvers returns
having converged (exit condition is not the maximum-iteration one), the
residual norm it reduced at its last check is below the absolute tolerance or
below the relative tolerance times the initial residual norm.  The loop tests
the reduced norm every `ncheck` full sweeps and stops on whichever comparison
triggers first; this theorem is the resulting invariant, for any sweep
function (in particular the `fullSweepU` / `fullSweepV` sweeps of
`psi_sor_poisson` and `psi_sor_vare_poisson`). -/
theorem c1_converged_below_tolerance {σ α : Type} [LinearOrderedField α] {P : ℕ}
    (sweep : ℕ → σ → Option (σ × (Fin P → α))) (tolAbs tolRel : α) (ncheck : ℕ)
    (r0 : α) (fuel n : ℕ) (s : σ) (rlast : α) (res : SorResult σ α)
    (hres : sorIter sweep tolAbs tolRel ncheck r0 fuel n s rlast = some res)
    (hst : res.status ≠ SorStatus.maxIts) :
    res.rnorm1 < tolAbs ∨ res.rnorm1 < tolRel * res.rnorm0 := by
  revert res hres hst
  induction fuel generalizing n s rlast with
  | zero =>
      intro res hres hst
      simp only [sorIter] at hres
      rw [← Option.some_inj.mp hres] at hst
      exact absurd rfl hst
  | succ fuel ih =>
      intro res hres hst
      cases hsw : sweep n s with
      | none => simp only [sorIter, hsw] at hres; exact Option.noConfusion hres
      | some pr =>
          obtain ⟨s1, rloc⟩ := pr
          simp only [sorIter, hsw] at hres
          split_ifs at hres with hchk habs hrel
          · rw [← Option.some_inj.mp hres]
            exact Or.inl habs
          · rw [← Option.some_inj.mp hres]
            exact hrel
          · exact ih (n + 1) s1 (Finset.univ.sum rloc) res hres hst
          · exact ih (n + 1) s1 rlast res hres hst

/-- C1 witness: `c1_converged_below_tolerance` applied to a concrete
one-sweep run over `ℚ` that converges at its first residual check. -/
theorem c1_converged_below_tolerance_witness : (0:ℚ) < 1 ∨ (0:ℚ) < 0 * 0 :=
  c1_converged_below_tolerance (fun _ _ => some ((), fun _ : Fin 1 => (0:ℚ)))
    1 0 1 0 1 0 () 0 ⟨(), SorStatus.convergedAbs, 0, 0⟩
    (by norm_num [sorIter]) (by decide)

/-! ## Claim C8 -/

/-- C8: if the sweeps themselves never fail, the iteration loop always
returns normally (non-convergence never aborts), and when it returns with the
maximum-iteration exit condition the returned potential state is exactly the
state after all `fuel` full sweeps (the last computed potential is retained)
and the result carries the initial reduced residual norm `rnorm[0]`, together
with the last reduced residual norm, as its non-fatal warning diagnostics. -/
theorem c8_maxits_best_effort {σ α : Type} [LinearOrderedField α] {P : ℕ}
    (sweep : ℕ → σ → Option (σ × (Fin P → α))) (tolAbs tolRel : α)
    (ncheck : ℕ) (r0 : α)
    (hsweep : ∀ m st, sweep m st ≠ none) :
    (∀ fuel n s rlast, sorIter sweep tolAbs tolRel ncheck r0 fuel n s rlast ≠ none)
    ∧ (∀ fuel n s rlast res,
        sorIter sweep tolAbs tolRel ncheck r0 fuel n s rlast = some res →
        res.status = SorStatus.maxIts →
        sweepIter sweep fuel n s = some res.state ∧ res.rnorm0 = r0) := by
  constructor
  · intro fuel
    induction fuel with
    | zero => intro n s rlast; simp [sorIter]
    | succ f ih =>
        intro n s rlast
        cases hsw : sweep n s with
        | none => exact absurd hsw (hsweep n s)
        | some pr =>
            obtain ⟨s1, rloc⟩ := pr
            simp only [sorIter, hsw]
            split_ifs
            · simp
            · simp
            · exact ih (n + 1) s1 (Finset.univ.sum rloc)
            · exact ih (n + 1) s1 rlast
  · intro fuel
    induction fuel with
    | zero =>
        intro n s rlast res hres hst
        simp only [sorIter] at hres
        rw [← Option.some_inj.mp hres]
        exact ⟨rfl, rfl⟩
    | succ f ih =>
        intro n s rlast res hres hst
        cases hsw : sweep n s with
        | none => simp only [sorIter, hsw] at hres; exact Option.noConfusion hres
        | some pr =>
            obtain ⟨s1, rloc⟩ := pr
            simp only [sorIter, hsw] at hres
            split_ifs at hres with hchk habs hrel
            · rw [← Option.some_inj.mp hres] at hst
              simp at hst
            · rw [← Option.some_inj.mp hres] at hst
              simp at hst
            · have := ih (n + 1) s1 (Finset.univ.sum rloc) res hres hst
              simpa [sweepIter, hsw] using this
            · have := ih (n + 1) s1 rlast res hres hst
              simpa [sweepIter, hsw] using this

/-- C8 witness: `c8_maxits_best_effort` applied to a concrete two-sweep run
over `ℚ` whose tolerances are never met: the loop still returns normally. -/
theorem c8_maxits_best_effort_witness :
    sorIter (fun _ (s : ℕ) => some (s + 1, fun _ : Fin 1 => (1:ℚ)))
      0 0 1 0 2 0 0 0 ≠ none :=
  (c8_maxits_best_effort (fun _ (s : ℕ) => some (s + 1, fun _ : Fin 1 => (1:ℚ)))
    0 0 1 0 (fun _ _ => Option.some_ne_none _)).1 2 0 0 0

/-! ## Claim C2 -/

/-- C2: the set of local sites visited by one red/black pass is exactly the
set of interior sites whose checkerboard colour `(i+j+k) mod 2` equals
`(1+pass) mod 2`; consequently — given the even-local-extent precondition both
solvers assert, under which every process offset (a multiple of the local
extents) has even parity along each axis — no two sites updated in the same
half-sweep, on the same process or on different processes of the
decomposition, are neighbours in the 6-point stencil. -/
theorem c2_checkerboard_halfsweep (nx ny nz pass : ℤ) :
    (∀ i j k : ℤ, updatedInPass nx ny nz pass i j k ↔
        1 ≤ i ∧ i ≤ nx ∧ 1 ≤ j ∧ j ≤ ny ∧ 1 ≤ k ∧ k ≤ nz ∧
          (i + j + k) % 2 = (1 + pass) % 2)
    ∧ (nx % 2 = 0 → ny % 2 = 0 → nz % 2 = 0 →
        ∀ p q g1 g2 : ℤ × ℤ × ℤ, globalUpdated nx ny nz pass p g1 →
          globalUpdated nx ny nz pass q g2 → ¬ stencilNeighbor g1 g2) := by
  constructor
  · intro i j k
    unfold updatedInPass
    omega
  · intro hx hy hz p q g1 g2 h1 h2 hn
    unfold globalUpdated updatedInPass at h1 h2
    unfold stencilNeighbor at hn
    obtain ⟨a1, ha1⟩ : (2:ℤ) ∣ nx * p.1 := (Int.dvd_of_emod_eq_zero hx).mul_right _
    obtain ⟨a2, ha2⟩ : (2:ℤ) ∣ ny * p.2.1 := (Int.dvd_of_emod_eq_zero hy).mul_right _
    obtain ⟨a3, ha3⟩ : (2:ℤ) ∣ nz * p.2.2 := (Int.dvd_of_emod_eq_zero hz).mul_right _
    obtain ⟨b1, hb1⟩ : (2:ℤ) ∣ nx * q.1 := (Int.dvd_of_emod_eq_zero hx).mul_right _
    obtain ⟨b2, hb2⟩ : (2:ℤ) ∣ ny * q.2.1 := (Int.dvd_of_emod_eq_zero hy).mul_right _
    obtain ⟨b3, hb3⟩ : (2:ℤ) ∣ nz * q.2.2 := (Int.dvd_of_emod_eq_zero hz).mul_right _
    rw [ha1, ha2, ha3] at h1
    rw [hb1, hb2, hb3] at h2
    omega

/-- C2 witness: on a `2×2×2` local box in pass 0, process `(0,0,0)` updates
its local site `(2,1,2)` and process `(1,0,0)` updates global site `(3,1,1)`;
by the theorem the two global sites cannot be stencil neighbours. -/
theorem c2_checkerboard_halfsweep_witness :
    ¬ stencilNeighbor ((2:ℤ), (1:ℤ), (2:ℤ)) ((3:ℤ), (1:ℤ), (1:ℤ)) :=
  (c2_checkerboard_halfsweep 2 2 2 0).2 (by decide) (by decide) (by decide)
    (0, 0, 0) (1, 0, 0) (2, 1, 2) (3, 1, 1) (by decide) (by decide)

/-! ## Claim C3 -/

/-- C3 (counterexample): `depsi` is not the flux-conservative face-average
form.  With the coefficient equal to 1 at the single site `(1,0,0)` and zero
elsewhere, and the potential equal to 1 at the single site `(-1,0,0)` and zero
elsewhere, the source's `depsi` at the origin is `-1/4` while the
face-average flux form there is `0`. -/
theorem c3_depsi_not_flux_counterexample :
    depsiVare (fun c : ℤ × ℤ × ℤ => if c = (1, 0, 0) then (1:ℚ) else 0)
        (fun c : ℤ × ℤ × ℤ => if c = (-1, 0, 0) then (1:ℚ) else 0) (0, 0, 0) = -(1/4)
      ∧ fluxDepsiSpec (fun c : ℤ × ℤ × ℤ => if c = (1, 0, 0) then (1:ℚ) else 0)
        (fun c : ℤ × ℤ × ℤ => if c = (-1, 0, 0) then (1:ℚ) else 0) (0, 0, 0) = 0
      ∧ (-(1/4) : ℚ) ≠ 0 := by
  refine ⟨?_, ?_, by norm_num⟩ <;>
    norm_num [depsiVare, fluxDepsiSpec, xp, xm, yp, ym, zp, zm, Prod.ext_iff]

/-- C3 (amended): the discrete operator `depsi` of `psi_sor_vare_poisson` is
the expanded central-difference form — the centre coefficient times the
6-point Laplacian plus, per axis, `(1/4)(eps(+) - eps(-))(psi(+) - psi(-))` —
which equals the spec's flux-conservative face-average form only up to a
correction of `-1/4` times the product of the second differences of `psi` and
of the coefficient along each axis (so the two coincide exactly when the
coefficient's second difference vanishes, e.g. for a constant or per-axis
linear coefficient).  The relaxation update does divide by the local centre
coefficient, `-6*eps(centre)`, rather than a global constant. -/
theorem c3_depsi_flux_correction {α : Type} [LinearOrderedField α]
    (eps psi rho : ℤ × ℤ × ℤ → α) (eunit beta w : α) (x : ℤ × ℤ × ℤ) :
    depsiVare eps psi x = fluxDepsiSpec eps psi x
      - ((psi (xp x) + psi (xm x) - 2 * psi x) * (eps (xp x) + eps (xm x) - 2 * eps x)
        + (psi (yp x) + psi (ym x) - 2 * psi x) * (eps (yp x) + eps (ym x) - 2 * eps x)
        + (psi (zp x) + psi (zm x) - 2 * psi x) * (eps (zp x) + eps (zm x) - 2 * eps x)) / 4
    ∧ vareSiteUpdate eunit beta w eps psi rho x
      = psi x - w * (depsiVare eps psi x + eunit * beta * rho x) / (-6 * eps x) := by
  constructor
  · unfold depsiVare fluxDepsiSpec
    ring
  · rfl

/-! ## Claim C10 -/

/-- C10 (counterexample): a configuration with halo width 0 and even local
extents passes the entry assertions of `psi_sor_vare_poisson` (which checks
only the extent parities), although the claim says both solvers can only be
entered with halo width at least 1; the uniform solver's entry assertions do
reject it. -/
theorem c10_entry_counterexample :
    vareEntryOk 0 2 2 2 ∧ ¬ poissonEntryOk 0 2 2 2 := by
  decide

/-- C10 (amended): odd local extents are rejected by fatal assertions at
solver entry (not at configuration setup): `psi_sor_poisson` proceeds exactly
when the halo width is at least 1 and all three local extents are even, while
`psi_sor_vare_poisson` proceeds exactly when all three local extents are even,
with no halo-width check. -/
theorem c10_entry_checks (nhalo nx ny nz : ℤ) :
    (poissonEntryOk nhalo nx ny nz ↔ 1 ≤ nhalo ∧ Even nx ∧ Even ny ∧ Even nz)
    ∧ (vareEntryOk nhalo nx ny nz ↔ Even nx ∧ Even ny ∧ Even nz) := by
  unfold poissonEntryOk vareEntryOk
  constructor <;> simp [Int.even_iff]

/-! ## Claim C6 -/

/-- C6: the initial residual norm `rnorm_local[0]` computed by
`psi_sor_poisson` through the flat buffer and the stride arithmetic
`index ± xs/ys/zs` equals the L1 sum, over every owned interior site, of the
absolute value of `epsilon` times the 6-point-stencil Laplacian of the
potential at that site plus `eunit*beta*rho_elec` there — provided the flat
buffers agree with the coordinate-space fields on the halo-extended box
(potential) and the interior (charge), which the stride model's bijectivity
provides.  The per-process sums are then combined by the summing reduction at
the loop's first residual check (`sorIter`). -/
theorem c6_initial_residual_norm {α : Type} [LinearOrderedField α]
    (nx ny nz h : ℤ) (eps eunit beta : α) (psiA rhoA : ℤ → α)
    (psi rho : ℤ × ℤ × ℤ → α)
    (hh : 1 ≤ h)
    (hpsi : ∀ ic jc kc : ℤ, 1 - h ≤ ic → ic ≤ nx + h → 1 - h ≤ jc → jc ≤ ny + h →
      1 - h ≤ kc → kc ≤ nz + h → psiA (cs_index ny nz h ic jc kc) = psi (ic, jc, kc))
    (hrho : ∀ ic jc kc : ℤ, 1 ≤ ic → ic ≤ nx → 1 ≤ jc → jc ≤ ny → 1 ≤ kc → kc ≤ nz →
      rhoA (cs_index ny nz h ic jc kc) = rho (ic, jc, kc)) :
    rnorm0Local nx ny nz h eps eunit beta psiA rhoA
      = ∑ ic ∈ Finset.Icc 1 nx, ∑ jc ∈ Finset.Icc 1 ny, ∑ kc ∈ Finset.Icc 1 nz,
          |eps * lap6 psi (ic, jc, kc) + eunit * beta * rho (ic, jc, kc)| := by
  unfold rnorm0Local
  refine Finset.sum_congr rfl (fun ic hic => ?_)
  refine Finset.sum_congr rfl (fun jc hjc => ?_)
  refine Finset.sum_congr rfl (fun kc hkc => ?_)
  rw [Finset.mem_Icc] at hic hjc hkc
  have e1 : cs_index ny nz h ic jc kc + xstride ny nz h
      = cs_index ny nz h (ic + 1) jc kc := by
    unfold cs_index xstride ystride; ring
  have e2 : cs_index ny nz h ic jc kc - xstride ny nz h
      = cs_index ny nz h (ic - 1) jc kc := by
    unfold cs_index xstride ystride; ring
  have e3 : cs_index ny nz h ic jc kc + ystride nz h
      = cs_index ny nz h ic (jc + 1) kc := by
    unfold cs_index xstride ystride; ring
  have e4 : cs_index ny nz h ic jc kc - ystride nz h
      = cs_index ny nz h ic (jc - 1) kc := by
    unfold cs_index xstride ystride; ring
  have e5 : cs_index ny nz h ic jc kc + 1 = cs_index ny nz h ic jc (kc + 1) := by
    unfold cs_index xstride ystride; ring
  have e6 : cs_index ny nz h ic jc kc - 1 = cs_index ny nz h ic jc (kc - 1) := by
    unfold cs_index xstride ystride; ring
  unfold dpsiFlat
  rw [e1, e2, e3, e4, e5, e6,
    hpsi (ic + 1) jc kc (by omega) (by omega) (by omega) (by omega) (by omega) (by omega),
    hpsi (ic - 1) jc kc (by omega) (by omega) (by omega) (by omega) (by omega) (by omega),
    hpsi ic (jc + 1) kc (by omega) (by omega) (by omega) (by omega) (by omega) (by omega),
    hpsi ic (jc - 1) kc (by omega) (by omega) (by omega) (by omega) (by omega) (by omega),
    hpsi ic jc (kc + 1) (by omega) (by omega) (by omega) (by omega) (by omega) (by omega),
    hpsi ic jc (kc - 1) (by omega) (by omega) (by omega) (by omega) (by omega) (by omega),
    hpsi ic jc kc (by omega) (by omega) (by omega) (by omega) (by omega) (by omega),
    hrho ic jc kc (by omega) (by omega) (by omega) (by omega) (by omega) (by omega)]
  rfl

/-- C6 witness: `c6_initial_residual_norm` on a `2×2×2` box with halo width 1
over `ℚ`, with the flat buffers holding the address value itself and the
coordinate fields reading it back through `cs_index`. -/
theorem c6_initial_residual_norm_witness :
    rnorm0Local 2 2 2 1 (1:ℚ) 1 1 (fun a => (a : ℚ)) (fun a => (a : ℚ))
      = ∑ ic ∈ Finset.Icc 1 2, ∑ jc ∈ Finset.Icc 1 2, ∑ kc ∈ Finset.Icc 1 2,
          |(1:ℚ) * lap6 (fun c : ℤ × ℤ × ℤ => ((cs_index 2 2 1 c.1 c.2.1 c.2.2 : ℤ) : ℚ))
              (ic, jc, kc)
            + 1 * 1 * ((cs_index 2 2 1 ic jc kc : ℤ) : ℚ)| :=
  c6_initial_residual_norm 2 2 2 1 1 1 1 (fun a => (a : ℚ)) (fun a => (a : ℚ))
    (fun c => ((cs_index 2 2 1 c.1 c.2.1 c.2.2 : ℤ) : ℚ))
    (fun c => ((cs_index 2 2 1 c.1 c.2.1 c.2.2 : ℤ) : ℚ))
    (by norm_num)
    (fun ic jc kc _ _ _ _ _ _ => rfl)
    (fun ic jc kc _ _ _ _ _ _ => rfl)

/-! ## Pointwise collapse of the variable-coefficient scheme (towards C7)

For a coefficient callback returning the constant `e`, the variable-epsilon
operator, residual and site update coincide exactly with the uniform ones
evaluated at permittivity `e`.  (This settles the spec's parenthetical
"collapses to the uniform case", but not the claim's tolerance-level
comparison of two full solver runs, whose omega schedules differ.) -/

/-- With a constant coefficient callback, `depsi`, the residual and the site
update of `psi_sor_vare_poisson` equal those of `psi_sor_poisson`. -/
theorem vare_collapses_to_uniform_pointwise {α : Type} [LinearOrderedField α]
    (e eunit beta w : α) (psi rho : ℤ × ℤ × ℤ → α) (x : ℤ × ℤ × ℤ) :
    depsiVare (fun _ => e) psi x = e * lap6 psi x
    ∧ vareResidual eunit beta (fun _ => e) psi rho x
      = uniformResidual e eunit beta psi rho x
    ∧ vareSiteUpdate eunit beta w (fun _ => e) psi rho x
      = uniformSiteUpdate e eunit beta w psi rho x := by
  refine ⟨?_, ?_, ?_⟩ <;>
    simp only [depsiVare, lap6, vareResidual, uniformResidual,
      vareSiteUpdate, uniformSiteUpdate] <;> ring

end PsiSor

namespace Halo

/-! ## Claim C9 -/

/-- Hopping to the backward neighbour (periodic wrap) and mirroring the local
coordinate up by one extent leaves the wrapped global coordinate unchanged. -/
theorem glb_update_back (n P : Fin 3 → ℤ) (d : Fin 3) (p c : Fin 3 → ℤ) :
    glb n P (Function.update p d ((p d - 1) % P d))
      (Function.update c d (c d + n d)) = glb n P p c := by
  funext e
  by_cases he : e = d
  · subst he
    simp only [glb, Function.update_same]
    rw [Int.emod_def (p e - 1) (P e)]
    have hx : (p e - 1 - P e * ((p e - 1) / P e)) * n e + (c e + n e) - 1
        = (p e * n e + c e - 1) + P e * n e * (-((p e - 1) / P e)) := by ring
    rw [hx, Int.add_mul_emod_self_left]
  · simp only [glb, Function.update_noteq he]

/-- Hopping to the forward neighbour (periodic wrap) and mirroring the local
coordinate down by one extent leaves the wrapped global coordinate
unchanged. -/
theorem glb_update_fwd (n P : Fin 3 → ℤ) (d : Fin 3) (p c : Fin 3 → ℤ) :
    glb n P (Function.update p d ((p d + 1) % P d))
      (Function.update c d (c d - n d)) = glb n P p c := by
  funext e
  by_cases he : e = d
  · subst he
    simp only [glb, Function.update_same]
    rw [Int.emod_def (p e + 1) (P e)]
    have hx : (p e + 1 - P e * ((p e + 1) / P e)) * n e + (c e - n e) - 1
        = (p e * n e + c e - 1) + P e * n e * (-((p e + 1) / P e)) := by ring
    rw [hx, Int.add_mul_emod_self_left]
  · simp only [glb, Function.update_noteq he]

/-- One axis phase extends correctness from a box that is interior along axis
`d` (and arbitrary along the others) to the box widened by the halo width
along axis `d`: the key inductive step behind the sequential-axis exchange. -/
theorem phase_correct {α : Type} (n P : Fin 3 → ℤ) (h : ℤ) (G : (Fin 3 → ℤ) → α)
    (A : (Fin 3 → ℤ) → (Fin 3 → ℤ) → α) (lo hi : Fin 3 → ℤ) (d : Fin 3)
    (hP : ∀ e, 0 < P e) (hhn : h ≤ n d)
    (hlo : lo d = 1) (hhi : hi d = n d)
    (hA : CorrectOn n P G A lo hi) :
    CorrectOn n P G (phase n P h d A) (Function.update lo d (1 - h))
      (Function.update hi d (n d + h)) := by
  intro p c hp hc
  have hcd := hc d
  rw [Function.update_same, Function.update_same] at hcd
  have hcother : ∀ e, e ≠ d → lo e ≤ c e ∧ c e ≤ hi e := fun e he => by
    have := hc e
    rwa [Function.update_noteq he, Function.update_noteq he] at this
  unfold phase
  split_ifs with h1 h2 h3
  · exact hA p c hp (fun e => by
      by_cases he : e = d
      · subst he; exact ⟨hlo ▸ h1.1, hhi ▸ h1.2⟩
      · exact hcother e he)
  · rw [hA _ _ ?hp ?hc, glb_update_back]
    case hp =>
      intro e
      by_cases he : e = d
      · subst he
        rw [Function.update_same]
        exact ⟨Int.emod_nonneg _ (ne_of_gt (hP e)), Int.emod_lt_of_pos _ (hP e)⟩
      · rw [Function.update_noteq he]; exact hp e
    case hc =>
      intro e
      by_cases he : e = d
      · subst he
        rw [Function.update_same, hlo, hhi]
        omega
      · rw [Function.update_noteq he]; exact hcother e he
  · rw [hA _ _ ?hp2 ?hc2, glb_update_fwd]
    case hp2 =>
      intro e
      by_cases he : e = d
      · subst he
        rw [Function.update_same]
        exact ⟨Int.emod_nonneg _ (ne_of_gt (hP e)), Int.emod_lt_of_pos _ (hP e)⟩
      · rw [Function.update_noteq he]; exact hp e
    case hc2 =>
      intro e
      by_cases he : e = d
      · subst he
        rw [Function.update_same, hlo, hhi]
        omega
      · rw [Function.update_noteq he]; exact hcother e he
  · exfalso
    omega

/-- C9: after the axis-sequential halo exchange, every site of the
halo-extended box — interior and ghost, including edge and corner ghosts fed
by two or three axis phases — on every process equals the global field at the
site's periodically wrapped global coordinate.  In particular every ghost site
within the communicated width equals the interior value owned by the
corresponding neighbour at the mirrored local offset (that is what `glb`
computes, via `glb_update_back`/`glb_update_fwd`), and on a periodic axis the
low-boundary ghost of the first process reads global index `extent - 1` while
the high-boundary ghost of the last process reads global index `0`. -/
theorem c9_exchange_ghosts_correct {α : Type} (n P : Fin 3 → ℤ) (h : ℤ)
    (G : (Fin 3 → ℤ) → α) (A : (Fin 3 → ℤ) → (Fin 3 → ℤ) → α)
    (hn : ∀ e, 0 < n e) (hP : ∀ e, 0 < P e) (hhn : ∀ e, h ≤ n e)
    (hA : Coherent n P G A) :
    (∀ p c, ValidProc P p → (∀ d, 1 - h ≤ c d ∧ c d ≤ n d + h) →
      exchange n P h A p c = G (glb n P p c))
    ∧ (∀ p c : Fin 3 → ℤ, ∀ d, p d = 0 → c d = 0 → glb n P p c d = P d * n d - 1)
    ∧ (∀ p c : Fin 3 → ℤ, ∀ d, p d = P d - 1 → c d = n d + 1 → glb n P p c d = 0) := by
  refine ⟨?_, ?_, ?_⟩
  · have step0 := phase_correct n P h G A (fun _ => 1) n 0 hP (hhn 0) rfl rfl
      (fun p c hp hc => hA p c hp hc)
    have step1 := phase_correct n P h G _ _ _ 1 hP (hhn 1)
      (by rw [Function.update_noteq (by decide : (1 : Fin 3) ≠ 0)])
      (by rw [Function.update_noteq (by decide : (1 : Fin 3) ≠ 0)]) step0
    have step2 := phase_correct n P h G _ _ _ 2 hP (hhn 2)
      (by rw [Function.update_noteq (by decide : (2 : Fin 3) ≠ 1),
        Function.update_noteq (by decide : (2 : Fin 3) ≠ 0)])
      (by rw [Function.update_noteq (by decide : (2 : Fin 3) ≠ 1),
        Function.update_noteq (by decide : (2 : Fin 3) ≠ 0)]) step1
    intro p c hp hc
    refine step2 p c hp (fun d => ?_)
    fin_cases d
    · simpa [Function.update] using hc 0
    · simpa [Function.update] using hc 1
    · simpa [Function.update] using hc 2
  · intro p c d hpd hcd
    have hN : 0 < P d * n d := mul_pos (hP d) (hn d)
    simp only [glb, hpd, hcd]
    have hx : (0 : ℤ) * n d + 0 - 1 = (P d * n d - 1) + P d * n d * (-1) := by ring
    rw [hx, Int.add_mul_emod_self_left, Int.emod_eq_of_lt (by omega) (by omega)]
  · intro p c d hpd hcd
    simp only [glb, hpd, hcd]
    rw [show (P d - 1) * n d + (n d + 1) - 1 = P d * n d from by ring, Int.emod_self]

/-- C9 witness: a single fully periodic process with a `2×2×2` box and halo
width 1; after the exchange the all-low corner ghost reads the global field at
the wrapped corner coordinate. -/
theorem c9_exchange_ghosts_correct_witness :
    exchange (fun _ => 2) (fun _ => 1) 1
        (fun p c => (fun g : Fin 3 → ℤ => g 0 + 2 * g 1 + 4 * g 2)
          (glb (fun _ => 2) (fun _ => 1) p c)) (fun _ => 0) (fun _ => 0)
      = (fun g : Fin 3 → ℤ => g 0 + 2 * g 1 + 4 * g 2)
          (glb (fun _ => 2) (fun _ => 1) (fun _ => 0) (fun _ => 0)) :=
  (c9_exchange_ghosts_correct (fun _ => 2) (fun _ => 1) 1
    (fun g : Fin 3 → ℤ => g 0 + 2 * g 1 + 4 * g 2)
    (fun p c => (fun g : Fin 3 → ℤ => g 0 + 2 * g 1 + 4 * g 2)
      (glb (fun _ => 2) (fun _ => 1) p c))
    (by decide) (by decide) (by decide)
    (fun p c _ _ => rfl)).1 (fun _ => 0) (fun _ => 0) (by decide) (by decide)

end Halo
